import Mathlib

/-!
Verification of the omegga-chunks plugin (`src/main.rs`).

This file shallowly embeds the plugin's core: the grid mapper
(`pos_to_chunk`, `chunk_center`, `chunk_corner`), the cost aggregator
(`impl From<SaveData> for AnalyzedSave`), the severity classifier and
marker synthesizer (`mark_chunks`), and the command handler
(`run_command`).  Machine integers are modelled as `Int`/`Nat` with
explicit two's-complement wrap-around (`wrap32`, `u32Mod`) where the
source performs `i32`/`u32` arithmetic that can overflow.  Fallible code
(array indexing that can panic) is modelled with `Option`.  External
collaborators (the Omegga host, the decoded save file, the
`colliders.json` cost table, the `HashMap` iteration sequence) are
passed in as explicit parameters, mirroring the spec's treatment of them
as opaque inputs.
-/

namespace OmeggaChunks

/-- Source: `const SAVE_NAME: &'static str = "_omegga_chunks";` -/
def SAVE_NAME : String := "_omegga_chunks"

/-- Source: `const MARKER_OWNER_UUID: &'static str = "00000000-0000-0000-0000-000000000001";` -/
def MARKER_OWNER_UUID : String := "00000000-0000-0000-0000-000000000001"

/-- Source: `const CHUNK_SIZE: i32 = 512;` -/
def CHUNK_SIZE : Int := 512

/-- Source: `const COLLIDER_LIMIT: u32 = 65000;` -/
def COLLIDER_LIMIT : Nat := 65000

/-- Source: `const COMPONENT_LIMIT: u32 = 75;` -/
def COMPONENT_LIMIT : Nat := 75

/-- Modulus of `u32` arithmetic. -/
def u32Mod : Nat := 2 ^ 32

/-- Two's-complement wrap-around of `i32` arithmetic: the value an `i32`
addition or multiplication produces in release builds when the
mathematical result overflows. -/
def wrap32 (n : Int) : Int := (n + 2 ^ 31) % 2 ^ 32 - 2 ^ 31

/-- Mirror of `brickadia::save::Color` (RGBA bytes). -/
structure Color where
  r : Nat
  g : Nat
  b : Nat
  a : Nat
deriving DecidableEq

/-- Mirror of `brickadia::save::BrickColor`. -/
inductive BrickColor where
  | unique (c : Color)
  | index (i : Nat)
deriving DecidableEq

/-- Mirror of `brickadia::save::Size`. -/
inductive Size where
  | procedural (x y z : Nat)
  | empty
deriving DecidableEq

/-- Mirror of the fields of `brickadia::save::Brick` that the plugin
reads or writes.  `components` holds the keys of the brick's component
map (only the key set's cardinality matters to the plugin, via
`brick.components.keys().len()`).  The field defaults stand for the
crate's `Brick::default()`, which the marker construction leaves in
place via `..Default::default()`. -/
structure Brick where
  asset_name_index : Nat := 0
  size : Size := .empty
  position : Int × Int × Int := (0, 0, 0)
  owner_index : Nat := 0
  material_index : Nat := 0
  material_intensity : Nat := 5
  color : BrickColor := .index 0
  components : List String := []
deriving DecidableEq

/-- Mirror of `brickadia::save::BrickOwner`. -/
structure BrickOwner where
  id : String := ""
  name : String := ""
  bricks : Nat := 0
deriving DecidableEq

/-- Mirror of the fields of `brickadia::save::Header2` the plugin uses. -/
structure Header2 where
  brick_assets : List String := []
  materials : List String := []
  brick_owners : List BrickOwner := []
deriving DecidableEq

/-- Mirror of the fields of `brickadia::save::SaveData` the plugin uses. -/
structure SaveData where
  header2 : Header2 := {}
  bricks : List Brick := []
deriving DecidableEq

/-- Source: `const MARKER_COLORS: [BrickColor; 5] = [...]`. -/
def MARKER_COLORS : List BrickColor :=
  [.unique ⟨255, 255, 255, 255⟩,
   .unique ⟨0, 255, 0, 255⟩,
   .unique ⟨255, 0, 0, 255⟩,
   .unique ⟨0, 0, 255, 255⟩,
   .unique ⟨255, 0, 255, 255⟩]

/-- Source: `const CHUNK_CORNERS: [(i32, i32, i32); 8] = [...]`, the
eight corner offsets written exactly as in the source. -/
def CHUNK_CORNERS : List (Int × Int × Int) :=
  [(-CHUNK_SIZE / 2 + 1, -CHUNK_SIZE / 2 + 1, -CHUNK_SIZE / 2 + 1),
   ( CHUNK_SIZE / 2 - 1, -CHUNK_SIZE / 2 + 1, -CHUNK_SIZE / 2 + 1),
   (-CHUNK_SIZE / 2 + 1,  CHUNK_SIZE / 2 - 1, -CHUNK_SIZE / 2 + 1),
   ( CHUNK_SIZE / 2 - 1,  CHUNK_SIZE / 2 - 1, -CHUNK_SIZE / 2 + 1),
   (-CHUNK_SIZE / 2 + 1, -CHUNK_SIZE / 2 + 1,  CHUNK_SIZE / 2 - 1),
   ( CHUNK_SIZE / 2 - 1, -CHUNK_SIZE / 2 + 1,  CHUNK_SIZE / 2 - 1),
   (-CHUNK_SIZE / 2 + 1,  CHUNK_SIZE / 2 - 1,  CHUNK_SIZE / 2 - 1),
   ( CHUNK_SIZE / 2 - 1,  CHUNK_SIZE / 2 - 1,  CHUNK_SIZE / 2 - 1)]

/-- Per-axis body of `pos_to_chunk`: the source computes
`(n as f64 / CHUNK_SIZE as f64).floor() as i32`.  For every `i32` input
this `f64` computation is exact: an `i32` converts to `f64` without
rounding (53-bit mantissa), dividing by the power of two `512` only
shifts the exponent and never rounds, and the floored quotient lies in
`[-2^22, 2^22]` so the final `as i32` cast is the identity.  The model
therefore performs the same computation over exact rationals. -/
def chunkRound (n : Int) : Int := ⌊(n : ℚ) / (CHUNK_SIZE : ℚ)⌋

/-- Source: `pub fn pos_to_chunk(pos: (i32, i32, i32)) -> (i32, i32, i32)`. -/
def pos_to_chunk (pos : Int × Int × Int) : Int × Int × Int :=
  (chunkRound pos.1, chunkRound pos.2.1, chunkRound pos.2.2)

/-- Source: `pub fn chunk_center(pos: (i32, i32, i32)) -> (i32, i32, i32)`;
the `i32` additions and multiplications wrap on overflow. -/
def chunk_center (pos : Int × Int × Int) : Int × Int × Int :=
  (wrap32 (CHUNK_SIZE / 2 + pos.1 * CHUNK_SIZE),
   wrap32 (CHUNK_SIZE / 2 + pos.2.1 * CHUNK_SIZE),
   wrap32 (CHUNK_SIZE / 2 + pos.2.2 * CHUNK_SIZE))

/-- Source: `pub fn chunk_corner(i: usize, center: (i32, i32, i32)) -> (i32, i32, i32)`.
The source indexes `CHUNK_CORNERS[i]`; all call sites use `i < 8`, and
the model totalizes the out-of-range case with a zero offset. -/
def chunk_corner (i : Nat) (center : Int × Int × Int) : Int × Int × Int :=
  let o := CHUNK_CORNERS.getD i (0, 0, 0)
  (wrap32 (center.1 + o.1), wrap32 (center.2.1 + o.2.1), wrap32 (center.2.2 + o.2.2))

/-- The `colliders.json` table (`HashMap<String, u32>`), an opaque
configuration input; `none` models an absent key. -/
abbrev CostTable := String → Option Nat

/-- The aggregate `HashMap<(i32, i32, i32), (u32, u32, u32)>` of
`AnalyzedSave`, modelled extensionally as a partial map. -/
abbrev AggMap := (Int × Int × Int) → Option (Nat × Nat × Nat)

/-- The empty aggregate (`HashMap::new()`). -/
def aggEmpty : AggMap := fun _ => none

/-- One `map.entry(chunk_pos).and_modify(...).or_insert(...)` step:
adds `1` to the brick count, `colliderCount` to the collider sum and
`componentCount` to the component sum at `key` (all `u32` additions,
hence reduced mod `2^32`), inserting `(1, colliderCount, componentCount)`
when the key is absent. -/
def updateAgg (m : AggMap) (key : Int × Int × Int)
    (colliderCount componentCount : Nat) : AggMap :=
  fun k =>
    if k = key then
      some (match m key with
        | some s =>
            ((s.1 + 1) % u32Mod, (s.2.1 + colliderCount) % u32Mod,
             (s.2.2 + componentCount) % u32Mod)
        | none => (1, colliderCount, componentCount))
    else m k

/-- One iteration of the aggregation loop over a brick: looks up the
brick's asset name by index (`brick_assets[brick.asset_name_index]`, a
panic — modelled as `none` — when out of range), its collider cost in
the table (`unwrap_or(&1)`), and its component count
(`brick.components.keys().len() as u32`).  Table values are `u32`-typed
in the source, so the `% u32Mod` reduction is the identity on faithful
tables; it keeps the `Nat` model inside the `u32` range. -/
def aggStep (table : CostTable) (assets : List String) (m : AggMap) (b : Brick) :
    Option AggMap :=
  match assets[b.asset_name_index]? with
  | none => none
  | some asset =>
      some (updateAgg m (pos_to_chunk b.position)
        ((table asset).getD 1 % u32Mod)
        (b.components.length % u32Mod))

/-- The aggregation loop `for brick in data.bricks.into_iter() { ... }`,
threading the possibility of an indexing panic. -/
def aggFold (table : CostTable) (assets : List String) (m : AggMap) :
    List Brick → Option AggMap
  | [] => some m
  | b :: rest =>
    match aggStep table assets m b with
    | none => none
    | some m2 => aggFold table assets m2 rest

/-- Source: `impl From<SaveData> for AnalyzedSave`.  Returns the
`chunk_colliders` map, or `none` when the conversion panics on an
out-of-range `asset_name_index`. -/
def analyzedSaveFrom (table : CostTable) (data : SaveData) : Option AggMap :=
  aggFold table data.header2.brick_assets aggEmpty data.bricks

/-- The marker colour selection in `mark_chunks` (`let col = match opt
{ ... }`): the guard chain written exactly as in the source, including
the redundant final `colliders <= COLLIDER_LIMIT` guard before the
catch-all `0`. -/
def classifyCol (opt : Option (Nat × Nat × Nat)) : Nat :=
  match opt with
  | some s =>
    if COLLIDER_LIMIT < s.2.1 ∧ COMPONENT_LIMIT < s.2.2 then 4
    else if COMPONENT_LIMIT < s.2.2 then 3
    else if COLLIDER_LIMIT < s.2.1 then 2
    else if s.2.1 ≤ COLLIDER_LIMIT then 1
    else 0
  | none => 0

/-- One marker brick as pushed inside `mark_chunks`; fields not listed
in the source's struct literal come from `..Default::default()`. -/
def markerBrick (col : Nat) (pos : Int × Int × Int) : Brick :=
  { owner_index := 1
    asset_name_index := 0
    material_index := 0
    material_intensity := 5
    color := MARKER_COLORS.getD col (.index 0)
    size := .procedural 1 1 1
    position := pos }

/-- Source: `pub fn mark_chunks(chunks: &[((i32, i32, i32), Option<(u32, u32, u32)>)]) -> SaveData`.
The nested `for` loops pushing onto `bricks` are modelled as nested
folds appending one brick at a time. -/
def mark_chunks (chunks : List ((Int × Int × Int) × Option (Nat × Nat × Nat))) :
    SaveData :=
  { header2 :=
      { brick_assets := ["PB_DefaultMicroBrick"]
        materials := ["BMC_Glow"]
        brick_owners := [{ id := MARKER_OWNER_UUID, name := "Chunk Marker", bricks := 0 }] }
    bricks :=
      chunks.foldl
        (fun acc e =>
          (List.range 8).foldl
            (fun acc2 i =>
              acc2 ++ [markerBrick (classifyCol e.2) (chunk_corner i (chunk_center e.1))])
            acc)
        [] }

/-- The `markall` entry collection loop
`for (pos, opt) in save.chunk_colliders.iter() { chunks.push((*pos, Some(*opt))) }`,
applied to the entry sequence the `HashMap` iteration yields. -/
def markallChunks (entries : List ((Int × Int × Int) × (Nat × Nat × Nat))) :
    List ((Int × Int × Int) × Option (Nat × Nat × Nat)) :=
  entries.foldl (fun acc e => acc ++ [(e.1, some e.2)]) []

/-- The `MarkerSave` the `markall` subcommand synthesizes from the entry
sequence produced by iterating the stored aggregate (Rust `HashMap`
iteration order is unspecified, so the sequence is a parameter). -/
def markallOutput (entries : List ((Int × Int × Int) × (Nat × Nat × Nat))) : SaveData :=
  mark_chunks (markallChunks entries)

/-- Severity tiers named as in the spec (§3); the source represents a
tier only as an index into `MARKER_COLORS`. -/
inductive SeverityTier where
  | tierNone
  | ok
  | physicsOver
  | componentsOver
  | bothOver
deriving DecidableEq

/-- The tier each marker-colour index stands for (white/green/red/blue/
magenta in `MARKER_COLORS` order). -/
def tierOfCol : Nat → SeverityTier
  | 0 => .tierNone
  | 1 => .ok
  | 2 => .physicsOver
  | 3 => .componentsOver
  | _ => .bothOver

/-- The classifier exactly as the spec words it (§4.3), for comparison
with the source's `classifyCol`: first-match precedence over strict
greater-than comparisons against the two budgets. -/
def specClassify (opt : Option (Nat × Nat × Nat))
    (physicsBudget componentBudget : Nat) : SeverityTier :=
  match opt with
  | none => .tierNone
  | some s =>
    if physicsBudget < s.2.1 ∧ componentBudget < s.2.2 then .bothOver
    else if componentBudget < s.2.2 then .componentsOver
    else if physicsBudget < s.2.1 then .physicsOver
    else .ok

/-- Mirror of the plugin's `AuthUser` config record. -/
structure AuthUser where
  name : String
  id : String
deriving DecidableEq

/-- Mirror of the plugin's `Config` record. -/
structure Config where
  authorized : List AuthUser
deriving DecidableEq

/-- The authorization check in `run_command`:
`config.authorized.iter().any(|u| u.name.to_lowercase() == user.to_lowercase())`. -/
def isAuthorized (cfg : Config) (user : String) : Bool :=
  cfg.authorized.any (fun u => u.name.toLower == user.toLower)

/-- Observable host operations `run_command` performs, in order. -/
inductive Effect where
  | whisper (user msg : String)
  | saveBricks (name : String)
  | loadSaveData (data : SaveData) (quiet : Bool) (offset : Int × Int × Int)
  | clearBricks (ownerId : String) (quiet : Bool)
deriving DecidableEq

/-- How one `run_command` invocation ends: normal completion
(`Ok(())`), a panic (killing the spawned task with no further output),
or an `anyhow` error propagated by `?` (caught by the dispatch wrapper,
which then reports generically). -/
inductive Outcome where
  | completed
  | panicked
  | errored
deriving DecidableEq

/-- The external collaborators one `run_command` invocation consults,
modelled as a pre-drawn oracle: whether `save_bricks` succeeds, what
`get_save_path` returns, what the save file decodes to (`none` models
the `SaveReader` `unwrap`s panicking), each user's live position
(`none` means no live presence), whether `load_save_data` succeeds, and
the entry sequence iterating the stored aggregate `HashMap` yields
(its order is unspecified by Rust). -/
structure Host where
  saveOk : Bool
  savePath : Option String
  decoded : Option SaveData
  playerPos : String → Option (Int × Int × Int)
  loadOk : Bool
  iterEntries : List ((Int × Int × Int) × (Nat × Nat × Nat))

/-- Source message: authorization failure. -/
def notAuthorizedMsg : String :=
  "<color=\"a00\">You are not authorized to use this command!</>"

/-- Source message: a query/mark subcommand issued before any analysis. -/
def analyzeFirstMsg : String :=
  "<color=\"a00\">The save has not been analyzed! Analyze it first with <code>/chunks analyze</>.</>"

/-- Source message: `save_bricks` failed. -/
def saveFailedMsg : String := "<color=\"a00\">Failed to save!</>"

/-- Source message: `get_save_path` found nothing. -/
def findSaveFailedMsg : String := "<color=\"a00\">Failed to find save! Try again.</>"

/-- Source message: analysis finished. -/
def analyzedMsg : String :=
  "<color=\"0a0\">The save has been analyzed. Any subsequent changes must be reanalyzed.</>"

/-- Source message: the player's chunk holds no aggregate entry. -/
def emptyChunkMsg : String := "<color=\"a00\">This chunk has no bricks or colliders!</>"

/-- Source message: `mark` done. -/
def markedMsg : String := "<color=\"0a0\">Your chunk has been marked.</>"

/-- Source message: `markall` done. -/
def markedAllMsg : String := "<color=\"0a0\">All chunks have been marked.</>"

/-- Source message: `clear` done. -/
def clearedMsg : String := "<color=\"0a0\">Chunk markers have been cleared.</>"

/-- Source message of the `in` subcommand (the `{:?}` tuple formatting
is abstracted by `toString`). -/
def inChunkMsg (chunk : Int × Int × Int) : String :=
  "You are in chunk " ++ toString chunk ++ "."

/-- Source message of the `count` subcommand for an occupied chunk. -/
def countMsg (bricks colliders components : Nat) (chunk : Int × Int × Int) : String :=
  "There are <b>" ++ toString bricks ++ " bricks</>, <b><color=\"" ++
    (if COLLIDER_LIMIT < colliders then "a00" else "0a0") ++ "\">" ++
    toString colliders ++ " colliders</></>, and <b>" ++ toString components ++
    " components</> in the chunk " ++ toString chunk ++ "."

/-- Source message of an unrecognized subcommand. -/
def unknownMsg (cmd : String) : String := "Unknown subcommand " ++ cmd ++ "."

/-- Source: `async fn run_command(...)`.  Returns the effect trace, the
Analysis Store content after the call, and how the call ended.  The
shape mirrors the source exactly: the early `return Ok(())` when the
config slot is empty, then `let command = &args[0];` (a panic on an
empty argument vector, modelled by the `none` arm), then the
authorization check, then the subcommand dispatch.  Player positions
arrive from the host as `f64` triples and are cast `as i32`; the model
receives them already cast. -/
def run_command (table : CostTable) (host : Host) (config : Option Config)
    (store : Option AggMap) (user : String) (args : List String) :
    List Effect × Option AggMap × Outcome :=
  match config with
  | none => ([], store, .completed)
  | some cfg =>
    match args[0]? with
    | none => ([], store, .panicked)
    | some command =>
      if isAuthorized cfg user = false then
        ([.whisper user notAuthorizedMsg], store, .completed)
      else
        match command with
        | "analyze" =>
          if host.saveOk = false then
            ([.saveBricks SAVE_NAME, .whisper user saveFailedMsg], store, .completed)
          else
            match host.savePath with
            | none =>
                ([.saveBricks SAVE_NAME, .whisper user findSaveFailedMsg], store, .completed)
            | some _ =>
              match host.decoded with
              | none => ([.saveBricks SAVE_NAME], store, .panicked)
              | some data =>
                match analyzedSaveFrom table data with
                | none => ([.saveBricks SAVE_NAME], store, .panicked)
                | some agg =>
                    ([.saveBricks SAVE_NAME, .whisper user analyzedMsg], some agg, .completed)
        | "in" =>
          match host.playerPos user with
          | none => ([], store, .errored)
          | some p => ([.whisper user (inChunkMsg (pos_to_chunk p))], store, .completed)
        | "count" =>
          match store with
          | some save =>
            match host.playerPos user with
            | none => ([], store, .errored)
            | some p =>
              match save (pos_to_chunk p) with
              | some s =>
                  ([.whisper user (countMsg s.1 s.2.1 s.2.2 (pos_to_chunk p))], store, .completed)
              | none => ([.whisper user emptyChunkMsg], store, .completed)
          | none => ([.whisper user analyzeFirstMsg], store, .completed)
        | "mark" =>
          match store with
          | some save =>
            match host.playerPos user with
            | none => ([], store, .errored)
            | some p =>
              let markerData := mark_chunks [(pos_to_chunk p, save (pos_to_chunk p))]
              if host.loadOk then
                ([.loadSaveData markerData true (0, 0, 0), .whisper user markedMsg],
                 store, .completed)
              else
                ([.loadSaveData markerData true (0, 0, 0)], store, .errored)
          | none => ([.whisper user analyzeFirstMsg], store, .completed)
        | "markall" =>
          match store with
          | some _ =>
            let markerData := markallOutput host.iterEntries
            if host.loadOk then
              ([.loadSaveData markerData true (0, 0, 0), .whisper user markedAllMsg],
               store, .completed)
            else
              ([.loadSaveData markerData true (0, 0, 0)], store, .errored)
          | none => ([.whisper user analyzeFirstMsg], store, .completed)
        | "clear" =>
            ([.clearBricks MARKER_OWNER_UUID true, .whisper user clearedMsg], store, .completed)
        | unknown =>
            ([.whisper user (unknownMsg unknown)], store, .completed)

/-- One possible iteration sequence of a two-chunk aggregate
`{(0,0,0) ↦ (1,1,1), (1,0,0) ↦ (1,1,1)}` — Rust `HashMap` iteration
order is unspecified, so both this sequence and `cexEntriesB` are
admissible enumerations of the same `AnalysisResult`. -/
def cexEntriesA : List ((Int × Int × Int) × (Nat × Nat × Nat)) :=
  [((1, 0, 0), (1, 1, 1)), ((0, 0, 0), (1, 1, 1))]

/-- The other iteration sequence of the same two-chunk aggregate. -/
def cexEntriesB : List ((Int × Int × Int) × (Nat × Nat × Nat)) :=
  [((0, 0, 0), (1, 1, 1)), ((1, 0, 0), (1, 1, 1))]

/-- Small closed sample cost table used by witness theorems. -/
def sampleTable : CostTable := fun _ => none

/-- Sample brick in chunk `(0,0,0)`. -/
def sampleBrickA : Brick := { asset_name_index := 0, position := (0, 0, 0) }

/-- Sample brick in chunk `(1,0,0)` carrying one component. -/
def sampleBrickB : Brick := { asset_name_index := 0, position := (600, 0, 0), components := ["c"] }

/-- Sample decoded save holding one brick. -/
def sampleData : SaveData :=
  { header2 := { brick_assets := ["PB"] }, bricks := [sampleBrickA] }

/-- Config whose authorized list is empty. -/
def emptyConfig : Config := { authorized := [] }

/-- Config authorizing one user (case-insensitively). -/
def sampleConfig : Config := { authorized := [{ name := "Alice", id := "1" }] }

/-- Concrete host oracle for closed evaluations. -/
def sampleHost : Host :=
  { saveOk := true, savePath := none, decoded := none,
    playerPos := fun _ => none, loadOk := true, iterEntries := [] }

/-! Helper lemmas. -/

/-- The exact rational computation of `chunkRound` is euclidean (= floor,
for the positive divisor) division by 512. -/
theorem chunkRound_eq_ediv (n : Int) : chunkRound n = n / 512 := by
  unfold chunkRound CHUNK_SIZE
  simpa using Rat.floor_intCast_div_natCast n 512

/-- Wrap-around is the identity inside the `i32` range. -/
theorem wrap32_eq_self {n : Int} (h1 : -2 ^ 31 ≤ n) (h2 : n < 2 ^ 31) : wrap32 n = n := by
  unfold wrap32; omega

/-- One axis of the grid round trip: re-deriving the chunk index from a
(wrapped) chunk center and re-computing the center reproduces it. -/
theorem center_roundtrip_axis (x : Int) :
    wrap32 (CHUNK_SIZE / 2 + chunkRound (wrap32 (CHUNK_SIZE / 2 + x * CHUNK_SIZE)) * CHUNK_SIZE)
      = wrap32 (CHUNK_SIZE / 2 + x * CHUNK_SIZE) := by
  rw [chunkRound_eq_ediv]; unfold wrap32 CHUNK_SIZE; omega

/-- Adding an offset of magnitude at most 255 to a chunk-center axis
value (which is `≡ 256 (mod 512)` and hence at least 256 away from both
ends of the `i32` range) never wraps. -/
theorem wrap32_center_offset (x d c : Int) (hc : c = wrap32 (256 + x * 512))
    (h1 : -255 ≤ d) (h2 : d ≤ 255) : wrap32 (c + d) = c + d := by
  subst hc; unfold wrap32; omega

/-- Appending one mapped element at a time is mapping. -/
theorem foldl_push_map {α β : Type} (f : α → β) :
    ∀ (l : List α) (acc : List β),
      l.foldl (fun a i => a ++ [f i]) acc = acc ++ l.map f := by
  intro l
  induction l with
  | nil => intro acc; simp
  | cons x xs ih => intro acc; simp [ih]

/-- Appending one block at a time is `flatMap`. -/
theorem foldl_append_flatMap {α β : Type} (g : α → List β) :
    ∀ (l : List α) (acc : List β),
      l.foldl (fun a e => a ++ g e) acc = acc ++ l.flatMap g := by
  intro l
  induction l with
  | nil => intro acc; simp
  | cons x xs ih => intro acc; simp [ih]

/-- The bricks `mark_chunks` emits: for each entry in input order, the
eight corner markers in `CHUNK_CORNERS` enumeration order. -/
theorem mark_chunks_bricks (chunks : List ((Int × Int × Int) × Option (Nat × Nat × Nat))) :
    (mark_chunks chunks).bricks =
      chunks.flatMap (fun e =>
        (List.range 8).map
          (fun i => markerBrick (classifyCol e.2) (chunk_corner i (chunk_center e.1)))) := by
  simp only [mark_chunks, foldl_push_map, foldl_append_flatMap, List.nil_append]

/-! Claim theorems. -/

/-- C1: the classifier maps an optional per-chunk statistics tuple to a
severity tier by first-match precedence with strict greater-than
comparisons (absent stats → none; both over → both-over; components
over alone → components-over; physics over alone → physics-over;
otherwise ok), agreeing with the spec's wording of the policy at the
source's budgets 65000/75; the spec's three examples classify as
both-over, ok and none; and a physics cost exactly at the budget never
yields a physics-related tier. -/
theorem classify_matches_spec :
    (∀ opt, tierOfCol (classifyCol opt) = specClassify opt COLLIDER_LIMIT COMPONENT_LIMIT) ∧
    tierOfCol (classifyCol (some (10, 70000, 80))) = .bothOver ∧
    tierOfCol (classifyCol (some (1, 100, 1))) = .ok ∧
    tierOfCol (classifyCol none) = .tierNone ∧
    (∀ n c, tierOfCol (classifyCol (some (n, COLLIDER_LIMIT, c))) ≠ .physicsOver ∧
      tierOfCol (classifyCol (some (n, COLLIDER_LIMIT, c))) ≠ .bothOver) := by
  refine ⟨fun opt => ?_, by decide, by decide, by decide, fun n c => ?_⟩
  · cases opt with
    | none => rfl
    | some s =>
      simp only [classifyCol, specClassify]
      split_ifs <;> first | rfl | (exfalso; omega)
  · simp only [classifyCol]
    split_ifs <;> first | (constructor <;> (intro h; exact absurd h (by decide))) | (exfalso; omega)

/-- C3: `pos_to_chunk` computes, per axis, the true mathematical floor
of the position divided by the cell size (`Int.fdiv`), not truncation
toward zero; in particular `(-1, -1, -1)` maps to chunk `(-1, -1, -1)`,
not `(0, 0, 0)`. -/
theorem pos_to_chunk_floor_div :
    (∀ p : Int × Int × Int,
      pos_to_chunk p = (Int.fdiv p.1 512, Int.fdiv p.2.1 512, Int.fdiv p.2.2 512)) ∧
    pos_to_chunk (-1, -1, -1) = (-1, -1, -1) ∧ pos_to_chunk (-1, -1, -1) ≠ (0, 0, 0) := by
  have hf : ∀ n : Int, chunkRound n = Int.fdiv n 512 := by
    intro n; rw [chunkRound_eq_ediv, Int.fdiv_eq_ediv _ (by norm_num)]
  refine ⟨fun p => ?_, ?_, ?_⟩
  · simp [pos_to_chunk, hf]
  · simp [pos_to_chunk, hf]
  · simp [pos_to_chunk, hf]

/-- C6: round-trip stability of the grid mapping, for every chunk key. -/
theorem chunk_center_roundtrip (k : Int × Int × Int) :
    chunk_center (pos_to_chunk (chunk_center k)) = chunk_center k := by
  obtain ⟨a, b, c⟩ := k
  simp only [chunk_center, pos_to_chunk, Prod.mk.injEq]
  exact ⟨center_roundtrip_axis a, center_roundtrip_axis b, center_roundtrip_axis c⟩

/-- C4: synthesizing markers for a single chunk entry produces exactly 8
marker objects, all sharing the one colour selected by the chunk's
severity tier, positioned at the 8 sign-combinations of the chunk
center offset by `±(CHUNK_SIZE / 2 - 1)` per axis — the inset-cube
corners, with no `i32` wrap-around. -/
theorem mark_chunks_single_chunk (k : Int × Int × Int) (opt : Option (Nat × Nat × Nat)) :
    (mark_chunks [(k, opt)]).bricks.length = 8 ∧
    (∀ b ∈ (mark_chunks [(k, opt)]).bricks,
      b.color = MARKER_COLORS.getD (classifyCol opt) (.index 0)) ∧
    (mark_chunks [(k, opt)]).bricks.map (fun b => b.position) =
      [((chunk_center k).1 - (CHUNK_SIZE / 2 - 1), (chunk_center k).2.1 - (CHUNK_SIZE / 2 - 1),
        (chunk_center k).2.2 - (CHUNK_SIZE / 2 - 1)),
       ((chunk_center k).1 + (CHUNK_SIZE / 2 - 1), (chunk_center k).2.1 - (CHUNK_SIZE / 2 - 1),
        (chunk_center k).2.2 - (CHUNK_SIZE / 2 - 1)),
       ((chunk_center k).1 - (CHUNK_SIZE / 2 - 1), (chunk_center k).2.1 + (CHUNK_SIZE / 2 - 1),
        (chunk_center k).2.2 - (CHUNK_SIZE / 2 - 1)),
       ((chunk_center k).1 + (CHUNK_SIZE / 2 - 1), (chunk_center k).2.1 + (CHUNK_SIZE / 2 - 1),
        (chunk_center k).2.2 - (CHUNK_SIZE / 2 - 1)),
       ((chunk_center k).1 - (CHUNK_SIZE / 2 - 1), (chunk_center k).2.1 - (CHUNK_SIZE / 2 - 1),
        (chunk_center k).2.2 + (CHUNK_SIZE / 2 - 1)),
       ((chunk_center k).1 + (CHUNK_SIZE / 2 - 1), (chunk_center k).2.1 - (CHUNK_SIZE / 2 - 1),
        (chunk_center k).2.2 + (CHUNK_SIZE / 2 - 1)),
       ((chunk_center k).1 - (CHUNK_SIZE / 2 - 1), (chunk_center k).2.1 + (CHUNK_SIZE / 2 - 1),
        (chunk_center k).2.2 + (CHUNK_SIZE / 2 - 1)),
       ((chunk_center k).1 + (CHUNK_SIZE / 2 - 1), (chunk_center k).2.1 + (CHUNK_SIZE / 2 - 1),
        (chunk_center k).2.2 + (CHUNK_SIZE / 2 - 1))] := by
  obtain ⟨a, b, c⟩ := k
  have hbr : (mark_chunks [((a, b, c), opt)]).bricks =
      (List.range 8).map
        (fun i => markerBrick (classifyCol opt) (chunk_corner i (chunk_center (a, b, c)))) := by
    rw [mark_chunks_bricks]; simp
  have hlo : ∀ x : Int, wrap32 (wrap32 (256 + x * 512) + -255) = wrap32 (256 + x * 512) - 255 := by
    intro x
    have h := wrap32_center_offset x (-255) _ rfl (by norm_num) (by norm_num)
    omega
  have hhi : ∀ x : Int, wrap32 (wrap32 (256 + x * 512) + 255) = wrap32 (256 + x * 512) + 255 := by
    intro x
    exact wrap32_center_offset x 255 _ rfl (by norm_num) (by norm_num)
  refine ⟨by rw [hbr]; simp, ?_, ?_⟩
  · rw [hbr]
    intro bk hbk
    simp only [List.mem_map] at hbk
    obtain ⟨i, _, rfl⟩ := hbk
    rfl
  · rw [hbr]
    have hr : List.range 8 = [0, 1, 2, 3, 4, 5, 6, 7] := rfl
    rw [hr]
    simp only [List.map_cons, List.map_nil, markerBrick, chunk_corner, CHUNK_CORNERS,
      chunk_center, CHUNK_SIZE]
    norm_num [hlo, hhi]

/-- C5 counterexample: `markall` does not sort entries by `ChunkKey` —
it emits them in `HashMap` iteration order.  Enumerating the same
two-chunk aggregate in its two possible orders yields different marker
sequences, and under the first enumeration the first emitted marker
sits in chunk `(1,0,0)` (position `(513,1,1)`) even though the smaller
key `(0,0,0)` is present. -/
theorem markall_not_sorted :
    (markallOutput cexEntriesA).bricks.map (fun b => b.position) ≠
      (markallOutput cexEntriesB).bricks.map (fun b => b.position) ∧
    ((markallOutput cexEntriesA).bricks.map (fun b => b.position)).headD (0, 0, 0) =
      (513, 1, 1) := by
  decide

/-- C5 amended: `markall` synthesis is deterministic given the entry
sequence the stored aggregate's `HashMap` iteration yields — the output
bricks are exactly, for each entry in iteration order (not sorted by
`ChunkKey`), that entry's 8 corner markers in the fixed `CHUNK_CORNERS`
enumeration order. -/
theorem markall_emission (entries : List ((Int × Int × Int) × (Nat × Nat × Nat))) :
    (markallOutput entries).bricks =
      entries.flatMap (fun e =>
        (List.range 8).map
          (fun i => markerBrick (classifyCol (some e.2)) (chunk_corner i (chunk_center e.1)))) := by
  unfold markallOutput markallChunks
  rw [mark_chunks_bricks]
  simp only [foldl_push_map, List.nil_append]
  simp [List.flatMap_map]

/-- Updating one key leaves every other key unchanged. -/
theorem updateAgg_apply_ne (m : AggMap) (key k : Int × Int × Int) (c p : Nat)
    (h : k ≠ key) : updateAgg m key c p k = m k := by
  simp [updateAgg, h]

/-- Two accumulation steps commute (wrapping `u32` addition is
commutative and associative, and distinct keys are independent). -/
theorem updateAgg_comm (m : AggMap) (k1 k2 : Int × Int × Int) (c1 p1 c2 p2 : Nat) :
    updateAgg (updateAgg m k1 c1 p1) k2 c2 p2 = updateAgg (updateAgg m k2 c2 p2) k1 c1 p1 := by
  funext k
  by_cases h1 : k = k1 <;> by_cases h2 : k = k2
  · subst h1
    subst h2
    simp only [updateAgg, if_pos rfl]
    cases hm : m k with
    | none =>
      simp only [Option.some.injEq, Prod.mk.injEq]
      norm_num [u32Mod]
      omega
    | some s =>
      simp only [Option.some.injEq, Prod.mk.injEq]
      norm_num [u32Mod]
      omega
  · subst h1
    simp [updateAgg, h2, Ne.symm h2]
  · subst h2
    simp [updateAgg, h1, Ne.symm h1]
  · simp [updateAgg, h1, h2]

/-- A step's success depends only on the brick, and on success it
changes only the brick's own chunk key. -/
theorem aggStep_apply_ne (t : CostTable) (a : List String) (m m' : AggMap) (b : Brick)
    (h : aggStep t a m b = some m') (k : Int × Int × Int)
    (hk : k ≠ pos_to_chunk b.position) : m' k = m k := by
  unfold aggStep at h
  cases ha : a[b.asset_name_index]? with
  | none => rw [ha] at h; cases h
  | some asset =>
    rw [ha] at h
    injection h with h
    subst h
    exact updateAgg_apply_ne _ _ _ _ _ hk

/-- Swapping two adjacent bricks does not change the aggregation. -/
theorem aggFold_swap (t : CostTable) (a : List String) (x y : Brick) (l : List Brick)
    (m : AggMap) : aggFold t a m (y :: x :: l) = aggFold t a m (x :: y :: l) := by
  simp only [aggFold, aggStep]
  cases hy : a[y.asset_name_index]? <;> cases hx : a[x.asset_name_index]? <;>
    simp only [updateAgg_comm]

/-- Aggregation is invariant under permutation of the brick list. -/
theorem aggFold_perm (t : CostTable) (a : List String) {l₁ l₂ : List Brick}
    (h : l₁.Perm l₂) : ∀ m : AggMap, aggFold t a m l₁ = aggFold t a m l₂ := by
  induction h with
  | nil => intro m; rfl
  | cons x h ih =>
    intro m
    simp only [aggFold]
    cases hs : aggStep t a m x with
    | none => rfl
    | some m2 => exact ih m2
  | swap x y l => intro m; exact aggFold_swap t a x y l m
  | trans h1 h2 ih1 ih2 => intro m; exact (ih1 m).trans (ih2 m)

/-- Keys no processed brick maps to keep their previous value. -/
theorem aggFold_preserve (t : CostTable) (a : List String) :
    ∀ (l : List Brick) (m m' : AggMap), aggFold t a m l = some m' →
      ∀ k, (∀ b ∈ l, pos_to_chunk b.position ≠ k) → m' k = m k := by
  intro l
  induction l with
  | nil =>
    intro m m' h k _
    injection h with h
    rw [h]
  | cons b rest ih =>
    intro m m' h k hk
    unfold aggFold at h
    cases hs : aggStep t a m b with
    | none => rw [hs] at h; cases h
    | some m2 =>
      rw [hs] at h
      have h2 : m2 k = m k :=
        aggStep_apply_ne t a m m2 b hs k (Ne.symm (hk b (List.mem_cons_self b rest)))
      rw [ih m2 m' h k (fun b' hb' => hk b' (List.mem_cons_of_mem b hb')), h2]

/-- Every stored count is at least 1 and at most the number of bricks
processed so far, provided that number stays below `2^32` (so the `u32`
count increment never wraps). -/
theorem aggFold_count_le (t : CostTable) (a : List String) :
    ∀ (l : List Brick) (m m' : AggMap) (n : Nat),
      aggFold t a m l = some m' →
      (∀ k s, m k = some s → 1 ≤ s.1 ∧ s.1 ≤ n) →
      n + l.length < u32Mod →
      ∀ k s, m' k = some s → 1 ≤ s.1 ∧ s.1 ≤ n + l.length := by
  intro l
  induction l with
  | nil =>
    intro m m' n h hm _ k s hk
    injection h with h
    subst h
    simpa using hm k s hk
  | cons b rest ih =>
    intro m m' n h hm hlen k s hk
    unfold aggFold at h
    cases hs : aggStep t a m b with
    | none => rw [hs] at h; cases h
    | some m2 =>
      rw [hs] at h
      have hm2 : ∀ k2 s2, m2 k2 = some s2 → 1 ≤ s2.1 ∧ s2.1 ≤ n + 1 := by
        unfold aggStep at hs
        cases ha : a[b.asset_name_index]? with
        | none => rw [ha] at hs; cases hs
        | some asset =>
          rw [ha] at hs
          injection hs with hs
          subst hs
          intro k2 s2 h2
          by_cases hk2 : k2 = pos_to_chunk b.position
          · subst hk2
            simp only [updateAgg, if_pos rfl] at h2
            cases hmk : m (pos_to_chunk b.position) with
            | none =>
              rw [hmk] at h2
              injection h2 with h2
              subst h2
              exact ⟨Nat.le_refl 1, Nat.le_add_left 1 n⟩
            | some s0 =>
              rw [hmk] at h2
              injection h2 with h2
              subst h2
              have hb := hm _ _ hmk
              have hlt : s0.1 + 1 < u32Mod := by
                simp only [List.length_cons] at hlen
                omega
              refine And.intro ?_ ?_
              · show 1 ≤ (s0.1 + 1) % u32Mod
                rw [Nat.mod_eq_of_lt hlt]
                omega
              · show (s0.1 + 1) % u32Mod ≤ n + 1
                rw [Nat.mod_eq_of_lt hlt]
                omega
          · rw [updateAgg_apply_ne _ _ _ _ _ hk2] at h2
            have := hm _ _ h2
            omega
      have := ih m2 m' (n + 1) h hm2 (by simp only [List.length_cons] at hlen ⊢; omega) k s hk
      simp only [List.length_cons] at this ⊢
      omega

/-- C2: aggregation is order-independent — permuting the brick list
yields the identical aggregate map (including the panicking cases,
which depend only on membership) — and one accumulation step changes
the map only at the brick's own chunk key, so no object contributes to
more than one `ChunkKey`. -/
theorem aggregate_perm_invariant (t : CostTable) (a : List String) (l₁ l₂ : List Brick)
    (h : l₁.Perm l₂) :
    aggFold t a aggEmpty l₁ = aggFold t a aggEmpty l₂ ∧
    ∀ (m m' : AggMap) (b : Brick), aggStep t a m b = some m' →
      ∀ k, k ≠ pos_to_chunk b.position → m' k = m k :=
  ⟨aggFold_perm t a h aggEmpty,
   fun m m' b hs k hk => aggStep_apply_ne t a m m' b hs k hk⟩

/-- C2 witness: the theorem applied to a concrete two-brick swap. -/
theorem aggregate_perm_invariant_witness :
    aggFold sampleTable ["PB"] aggEmpty [sampleBrickA, sampleBrickB] =
      aggFold sampleTable ["PB"] aggEmpty [sampleBrickB, sampleBrickA] ∧
    ∀ (m m' : AggMap) (b : Brick), aggStep sampleTable ["PB"] m b = some m' →
      ∀ k, k ≠ pos_to_chunk b.position → m' k = m k :=
  aggregate_perm_invariant sampleTable ["PB"] _ _
    (List.Perm.swap sampleBrickB sampleBrickA [])

/-- C7: in any aggregate the conversion produces (for any decoded save
whose brick count stays below `2^32`, which every save read by the
`u32`-counted format satisfies), every stored `ChunkStats` has
`object_count ≥ 1`, and a chunk none of the save's bricks maps to is
absent from the map. -/
theorem aggregate_count_invariant (t : CostTable) (data : SaveData) (m' : AggMap)
    (h : analyzedSaveFrom t data = some m') (hlen : data.bricks.length < u32Mod) :
    (∀ k s, m' k = some s → 1 ≤ s.1) ∧
    (∀ k, (∀ b ∈ data.bricks, pos_to_chunk b.position ≠ k) → m' k = none) := by
  constructor
  · intro k s hk
    have hinv := aggFold_count_le t data.header2.brick_assets data.bricks aggEmpty m' 0 h
      (by intro k2 s2 h2; simp [aggEmpty] at h2) (by omega) k s hk
    exact hinv.1
  · intro k hk
    have hpres := aggFold_preserve t data.header2.brick_assets data.bricks aggEmpty m' h k hk
    simpa [aggEmpty] using hpres

/-- C7 witness: the theorem applied to the one-brick sample save. -/
theorem aggregate_count_invariant_witness :
    (∀ k s, updateAgg aggEmpty (pos_to_chunk (0, 0, 0)) 1 0 k = some s → 1 ≤ s.1) ∧
    (∀ k, (∀ b ∈ sampleData.bricks, pos_to_chunk b.position ≠ k) →
      updateAgg aggEmpty (pos_to_chunk (0, 0, 0)) 1 0 k = none) :=
  aggregate_count_invariant sampleTable sampleData
    (updateAgg aggEmpty (pos_to_chunk (0, 0, 0)) 1 0) rfl
    (by norm_num [sampleData, u32Mod])

/-- C10: the conversion succeeds (returns `some`) exactly when every
brick's `asset_name_index` is inside the save's asset table — otherwise
the unguarded `brick_assets[...]` indexing panics — and for an in-range
brick whose asset the cost table does not list, the contributed physics
cost defaults to 1. -/
theorem aggregate_total_iff (t : CostTable) (a : List String) (l : List Brick) (m : AggMap) :
    ((aggFold t a m l).isSome = true ↔ ∀ b ∈ l, b.asset_name_index < a.length) ∧
    (∀ (m0 : AggMap) (b : Brick) (asset : String),
      a[b.asset_name_index]? = some asset → t asset = none →
      aggStep t a m0 b =
        some (updateAgg m0 (pos_to_chunk b.position) 1 (b.components.length % u32Mod))) := by
  constructor
  · induction l generalizing m with
    | nil => simp [aggFold]
    | cons b rest ih =>
      simp only [aggFold, aggStep]
      cases ha : a[b.asset_name_index]? with
      | none =>
        have hge : a.length ≤ b.asset_name_index := by
          simpa using List.getElem?_eq_none_iff.mp ha
        simp only [Option.isSome_none]
        constructor
        · intro hfalse; cases hfalse
        · intro hall
          exact absurd (hall b (List.mem_cons_self b rest)) (by omega)
      | some asset =>
        have hlt : b.asset_name_index < a.length := by
          by_contra hge
          rw [List.getElem?_eq_none_iff.mpr (by omega)] at ha
          cases ha
        rw [ih]
        constructor
        · intro hall b' hb'
          rcases List.mem_cons.mp hb' with h | h
          · subst h; exact hlt
          · exact hall b' h
        · intro hall b' hb'
          exact hall b' (List.mem_cons_of_mem b hb')
  · intro m0 b asset ha ht
    unfold aggStep
    rw [ha]
    simp only [ht, Option.getD_none]
    norm_num [u32Mod]

/-- Evaluation rule for `String.toLower` (whose `mapAux` recursion the
kernel cannot unfold directly). -/
theorem toLower_eval (s : String) : s.toLower = String.mk (s.data.map Char.toLower) := by
  show String.map Char.toLower s = _
  rw [String.map_eq]

/-- C9: invoking the handler with an empty argument vector panics at
`&args[0]` — before the authorization check and the subcommand
dispatch — so no message (in particular no "unknown subcommand" report)
is produced and the store is untouched, for every loaded config, user
and store. -/
theorem run_command_empty_args_panics (t : CostTable) (host : Host) (cfg : Config)
    (store : Option AggMap) (user : String) :
    run_command t host (some cfg) store user [] = ([], store, .panicked) := rfl

/-- C8 counterexample: with no analysis stored, a `count` invocation by
a user who is not on the authorized list reports the authorization
failure, not the "analyze first" message — the claim fails for
unauthorized users. -/
theorem count_no_analysis_unauthorized :
    run_command sampleTable sampleHost (some emptyConfig) none "eve" ["count"] =
      ([.whisper "eve" notAuthorizedMsg], none, .completed) ∧
    notAuthorizedMsg ≠ analyzeFirstMsg :=
  ⟨rfl, by decide⟩

/-- C8 amended: for every invocation of `count`, `mark` or `markall` by
an authorized user while the config is loaded and the Analysis Store is
empty, the handler emits exactly the "analyze first" whisper, performs
no load operation (or any other host effect), leaves the store
unchanged, and completes normally — an ordinary message, not an
exception. -/
theorem no_analysis_reports_analyze_first (t : CostTable) (host : Host) (cfg : Config)
    (user : String) (args : List String) (cmd : String)
    (hcmd : args[0]? = some cmd)
    (hmem : cmd = "count" ∨ cmd = "mark" ∨ cmd = "markall")
    (hauth : isAuthorized cfg user = true) :
    run_command t host (some cfg) none user args =
      ([.whisper user analyzeFirstMsg], none, .completed) := by
  rcases hmem with h | h | h <;> subst h <;> simp [run_command, hcmd, hauth]

/-- C8 witness: the amended theorem applied to a concrete authorized
`count` invocation against an empty store. -/
theorem no_analysis_reports_analyze_first_witness :
    run_command sampleTable sampleHost (some sampleConfig) none "alice" ["count"] =
      ([.whisper "alice" analyzeFirstMsg], none, .completed) :=
  no_analysis_reports_analyze_first sampleTable sampleHost sampleConfig "alice" ["count"]
    "count" rfl (Or.inl rfl)
    (by simp only [isAuthorized, sampleConfig, toLower_eval, List.any_cons, List.any_nil]; decide)

end OmeggaChunks
